import Mathlib

/-!
Verification of the procedural-gradient framebuffer program.

The pixel pipeline of the repository is embedded shallowly:

* `fit_range`, `render_bg_image`, the channel extraction of
  `write_as_exr_image` and the per-pixel draw loop of
  `ApplicationState::draw` are translated from `src/image.rs` and
  `src/main.rs`.
* The color arithmetic (`blend`, the tonemapper, the color-space
  conversions, `to_u8`) lives in the external `colstodian` crate whose
  source is not part of this repository; those operations are modelled
  from the specification, as documented on each definition.
* The module `constants` (fixed buffer dimensions) is not present under
  `src/`; following the specification, the dimensions are explicit
  parameters of the generator and of the framebuffer operations.

Machine floats are modelled as exact rationals.
-/

namespace FB

/-- A color value: three components (the working space is a triple of
channels).  Modelled from the spec: the colstodian `Color` struct is not
under `src/`; a color is a triple of floating-point components, embedded
as exact rationals. -/
structure Col where
  r : ℚ
  g : ℚ
  b : ℚ
deriving DecidableEq, Repr

/-- Modelled from the spec: colstodian `blend` is not under `src/`;
linear interpolation of two colors, `result = a + (b - a) * t`
per channel, with `t` unconstrained. -/
def blend (a b : Col) (t : ℚ) : Col :=
  ⟨a.r + (b.r - a.r) * t, a.g + (b.g - a.g) * t, a.b + (b.b - a.b) * t⟩

/-- Linear remap of a value in one range into another range (no
clamping); `fit_range` from `src/image.rs`. -/
def fit_range (x imin imax omin omax : ℚ) : ℚ :=
  (omax - omin) * (x - imin) / (imax - imin) + omin

/-- Pure red anchor in the working space (`color::acescg::<Scene>(1,0,0)`). -/
def red : Col := ⟨1, 0, 0⟩

/-- Pure green anchor in the working space (`color::acescg::<Scene>(0,1,0)`). -/
def green : Col := ⟨0, 1, 0⟩

/-- Pure blue anchor in the working space (`color::acescg::<Scene>(0,0,1)`). -/
def blue : Col := ⟨0, 0, 1⟩

/-- The per-pixel color computed by the body of the loops of
`render_bg_image` in `src/image.rs` at loop coordinates `(x, y)`:
`u = fit_range x 0 W 0 1`, `v = fit_range y 0 H 0 1`, then
`blend (blend red green u) (blend red blue v) 0.5`. -/
def renderPixel (W H x y : ℕ) : Col :=
  let u := fit_range (x : ℚ) 0 (W : ℚ) 0 1
  let v := fit_range (y : ℚ) 0 (H : ℚ) 0 1
  let h_blended := blend red green u
  let v_blended := blend red blue v
  blend h_blended v_blended (1 / 2)

/-- The four consecutive buffer entries written for one pixel:
R, G, B and the coverage value 1.0 (`src/image.rs` lines 47-50). -/
def pixelQuad (c : Col) : List ℚ := [c.r, c.g, c.b, 1]

/-- One row of the generated buffer: the inner `x` loop of
`render_bg_image`, `x` running from `0` to `W - 1`. -/
def rowList (W H y : ℕ) : List ℚ :=
  (List.range W).flatMap (fun x => pixelQuad (renderPixel W H x y))

/-- `render_bg_image` from `src/image.rs`: the outer loop runs `y` from
`H - 1` down to `0` (the source iterates `(0..HEIGHT).rev()`), the inner
loop runs `x` upwards, and the write index advances by 4 per pixel from
the start of the buffer.  The fixed dimensions of the missing
`constants` module are explicit parameters, as the specification
requires. -/
def render_bg_image (W H : ℕ) : List ℚ :=
  ((List.range H).reverse).flatMap (fun y => rowList W H y)

/-- Length of a `flatMap` whose pieces all have the same length. -/
theorem length_flatMap_const {α β : Type} (g : α → List β) (c : ℕ)
    (hc : ∀ a, (g a).length = c) (l : List α) :
    (l.flatMap g).length = c * l.length := by
  induction l with
  | nil => simp
  | cons a t ih =>
    rw [List.flatMap_cons, List.length_append, hc, ih, List.length_cons]
    ring

/-- Indexing into a `flatMap` whose pieces all have the same length `c`:
position `c * i + j` falls in the piece generated from the `i`-th
element. -/
theorem getElem?_flatMap_const {α β : Type} (g : α → List β) (c : ℕ)
    (hc : ∀ a, (g a).length = c) (l : List α) :
    ∀ (i j : ℕ) (hi : i < l.length), j < c →
      (l.flatMap g)[c * i + j]? = (g l[i])[j]? := by
  induction l with
  | nil => intro i j hi hj; simp at hi
  | cons a t ih =>
    intro i j hi hj
    cases i with
    | zero =>
      rw [List.flatMap_cons, List.getElem?_append_left (by rw [hc]; omega)]
      simp
    | succ i =>
      rw [List.flatMap_cons,
        List.getElem?_append_right (by rw [hc, Nat.mul_succ]; omega)]
      have harith : c * (i + 1) + j - (g a).length = c * i + j := by
        rw [hc, Nat.mul_succ]; omega
      rw [harith, List.getElem_cons_succ]
      exact ih i j (by simpa using hi) hj

theorem pixelQuad_length (c : Col) : (pixelQuad c).length = 4 := rfl

theorem rowList_length (W H y : ℕ) : (rowList W H y).length = 4 * W := by
  have := length_flatMap_const (fun x => pixelQuad (renderPixel W H x y)) 4
    (fun _ => rfl) (List.range W)
  simpa [rowList, Nat.mul_comm] using this

theorem render_bg_image_length (W H : ℕ) :
    (render_bg_image W H).length = W * H * 4 := by
  have := length_flatMap_const (fun y => rowList W H y) (4 * W)
    (fun y => rowList_length W H y) ((List.range H).reverse)
  rw [render_bg_image, this, List.length_reverse, List.length_range]
  ring

/-- Structure theorem for the generated buffer: the quadruple stored at
row-major pixel position `(x, y)` is the one the loop body computed at
loop coordinates `(x, H - 1 - y)`, because the outer loop runs `y` in
reverse while the write index advances forward. -/
theorem render_bg_image_getElem? (W H x y k : ℕ)
    (hx : x < W) (hy : y < H) (hk : k < 4) :
    (render_bg_image W H)[(y * W + x) * 4 + k]? =
      (pixelQuad (renderPixel W H x (H - 1 - y)))[k]? := by
  have hylen : y < ((List.range H).reverse).length := by
    simpa [List.length_reverse, List.length_range] using hy
  have hidx : (y * W + x) * 4 + k = (4 * W) * y + (4 * x + k) := by ring
  have hjlt : 4 * x + k < 4 * W := by omega
  have houter := getElem?_flatMap_const (fun y => rowList W H y) (4 * W)
    (fun y => rowList_length W H y) ((List.range H).reverse) y (4 * x + k)
    hylen hjlt
  have hrev : ((List.range H).reverse)[y] = H - 1 - y := by
    rw [List.getElem_reverse]
    simp [List.length_range]
  have hxlen : x < (List.range W).length := by simpa [List.length_range] using hx
  have hinner := getElem?_flatMap_const
    (fun x => pixelQuad (renderPixel W H x (H - 1 - y))) 4
    (fun _ => rfl) (List.range W) x k hxlen hk
  rw [render_bg_image, hidx, houter, hrev]
  simp only [rowList]
  rw [hinner, List.getElem_range]

/-- `chunks_exact(4)` over the flat buffer: the maximal list of complete
quadruples, any trailing remainder dropped (`src/image.rs` line 70 and
`src/main.rs` line 169). -/
def chunks4 : List ℚ → List (ℚ × ℚ × ℚ × ℚ)
  | a :: b :: c :: d :: rest => (a, b, c, d) :: chunks4 rest
  | _ => []

/-- Modelled from the spec: `PerceptualTonemapperParams` of colstodian is
not under `src/`; recognized options are an exposure offset that
pre-scales the input and a contrast that shapes the compression curve
steepness. -/
structure PerceptualTonemapperParams where
  exposure : ℚ
  contrast : ℕ

/-- The `PerceptualTonemapperParams::default()` used by
`ApplicationState::draw`: neutral exposure and contrast. -/
def defaultParams : PerceptualTonemapperParams := ⟨1, 1⟩

/-- Modelled from the spec: the scene-referred luminance of a working
space color, a fixed positive weighting of the three channels (the AP1
luminance weights; the weights sum to 1). -/
def lum (c : Col) : ℚ :=
  (2722287168 / 10000000000) * c.r + (6740817658 / 10000000000) * c.g
    + (536895174 / 10000000000) * c.b

/-- Channel-wise scaling of a color by a factor. -/
def scale (t : ℚ) (c : Col) : Col := ⟨t * c.r, t * c.g, t * c.b⟩

/-- Modelled from the spec: the perceptual compression curve of the
tonemapper — nearly linear at 0, progressively compressing values
approaching and exceeding 1, bounded below 1, never hard-clipping.
Exposure pre-scales the input and contrast shapes the steepness:
`curve p x = (e*x)^c / ((e*x)^c + 1)`. -/
def curve (p : PerceptualTonemapperParams) (x : ℚ) : ℚ :=
  (p.exposure * x) ^ p.contrast / ((p.exposure * x) ^ p.contrast + 1)

/-- Modelled from the spec: `PerceptualTonemapper::tonemap` is not under
`src/`; it maps a scene-referred working-space color to a
display-referred one by compressing its luminance through `curve`,
preserving hue (the channels are rescaled uniformly). Non-positive
luminance is left untouched. -/
def tonemap (p : PerceptualTonemapperParams) (c : Col) : Col :=
  if lum c ≤ 0 then c else scale (curve p (lum c) / lum c) c

/-- A 3x3 matrix of rationals, used for the linear color-space
conversions. -/
structure Mat3 where
  a11 : ℚ
  a12 : ℚ
  a13 : ℚ
  a21 : ℚ
  a22 : ℚ
  a23 : ℚ
  a31 : ℚ
  a32 : ℚ
  a33 : ℚ

/-- Matrix-vector application on a color triple. -/
def Mat3.apply (m : Mat3) (c : Col) : Col :=
  ⟨m.a11 * c.r + m.a12 * c.g + m.a13 * c.b,
   m.a21 * c.r + m.a22 * c.g + m.a23 * c.b,
   m.a31 * c.r + m.a32 * c.g + m.a33 * c.b⟩

/-- Determinant of a 3x3 matrix. -/
def Mat3.det (m : Mat3) : ℚ :=
  m.a11 * (m.a22 * m.a33 - m.a23 * m.a32)
    - m.a12 * (m.a21 * m.a33 - m.a23 * m.a31)
    + m.a13 * (m.a21 * m.a32 - m.a22 * m.a31)

/-- Exact inverse of a 3x3 matrix (adjugate over determinant). -/
def Mat3.inv (m : Mat3) : Mat3 :=
  ⟨(m.a22 * m.a33 - m.a23 * m.a32) / m.det,
   (m.a13 * m.a32 - m.a12 * m.a33) / m.det,
   (m.a12 * m.a23 - m.a13 * m.a22) / m.det,
   (m.a23 * m.a31 - m.a21 * m.a33) / m.det,
   (m.a11 * m.a33 - m.a13 * m.a31) / m.det,
   (m.a13 * m.a21 - m.a11 * m.a23) / m.det,
   (m.a21 * m.a32 - m.a22 * m.a31) / m.det,
   (m.a12 * m.a31 - m.a11 * m.a32) / m.det,
   (m.a11 * m.a22 - m.a12 * m.a21) / m.det⟩

/-- Modelled from the spec: the linear part of the conversion between
Encoded sRGB primaries and the ACEScg working space (the published
BT.709 to AP1 matrix with chromatic adaptation), with exact rational
entries. -/
def srgb_to_acescg : Mat3 :=
  ⟨6130974024 / 10000000000, 3395231462 / 10000000000, 473794514 / 10000000000,
   701937225 / 10000000000, 9163538791 / 10000000000, 134523985 / 10000000000,
   206155929 / 10000000000, 1095697729 / 10000000000, 8698146342 / 10000000000⟩

/-- Modelled from the spec: `convert` from Encoded sRGB to the working
space (colstodian is not under `src/`).  In this exact-rational model
the nonlinear transfer function and its inverse cancel exactly, so the
conversion is the linear primaries matrix. -/
def srgb_to_working (c : Col) : Col := srgb_to_acescg.apply c

/-- Modelled from the spec: `convert` from the working space back to
Encoded sRGB — the exact inverse of `srgb_to_working`. -/
def working_to_srgb (c : Col) : Col := (Mat3.inv srgb_to_acescg).apply c

/-- Clamp a display-referred value to the nominal [0, 1] range. -/
def clamp01 (x : ℚ) : ℚ := max 0 (min 1 x)

/-- Modelled from the spec: colstodian `to_u8` — an Encoded sRGB,
display-referred channel is bounded to [0, 1] and converted to 8 bits
via rounding. -/
def to_u8 (x : ℚ) : ℕ := (round (255 * clamp01 x)).toNat

/-- The Rust saturating numeric cast `x as u8` applied to a float
(`src/main.rs` line 195): truncation toward zero, saturated to
[0, 255]. -/
def rust_f32_as_u8 (x : ℚ) : ℕ :=
  if x ≤ 0 then 0 else min 255 (Int.toNat ⌊x⌋)

/-- The alpha byte computed by `ApplicationState::draw`:
`(255 as f32 * alpha) as u8`. -/
def alphaByte (a : ℚ) : ℕ := rust_f32_as_u8 (255 * a)

/-- The body of the per-pixel loop of `ApplicationState::draw`
(`src/main.rs` lines 170-197): rebuild the working-space color from the
first three floats of the quadruple, tonemap it with default parameters,
convert to Encoded sRGB, convert to 8 bit, and append the alpha byte
computed from the fourth float. -/
def drawPixel (q : ℚ × ℚ × ℚ × ℚ) : List ℕ :=
  let rendered_color : Col := ⟨q.1, q.2.1, q.2.2.1⟩
  let alpha := q.2.2.2
  let tonemapped := tonemap defaultParams rendered_color
  let encoded := working_to_srgb tonemapped
  [to_u8 encoded.r, to_u8 encoded.g, to_u8 encoded.b, alphaByte alpha]

/-- The byte sequence `ApplicationState::draw` writes into the frame:
one 4-byte RGBA group per complete quadruple of the owned scene
buffer. -/
def drawBytes (buf : List ℚ) : List ℕ := (chunks4 buf).flatMap drawPixel

/-- The application state of `src/main.rs`: it owns the scene-referred
framebuffer. -/
structure ApplicationState where
  framebuffer : List ℚ

/-- `ApplicationState::draw` takes `&self`: it reads the owned buffer
and produces the display-ready bytes. -/
def ApplicationState.draw (s : ApplicationState) : List ℕ :=
  drawBytes s.framebuffer

/-- One redraw cycle as a state transformer: the event loop calls
`app.draw(...)` through an immutable borrow, so the state component is
returned unchanged. -/
def redrawStep (s : ApplicationState) : List ℕ × ApplicationState :=
  (s.draw, s)

/-- The R samples extracted by `write_as_exr_image`: element 0 of every
complete quadruple (`src/image.rs` lines 70-74). -/
def rChan (buf : List ℚ) : List ℚ := (chunks4 buf).map (fun q => q.1)

/-- The G samples extracted by `write_as_exr_image`: element 1 of every
complete quadruple. -/
def gChan (buf : List ℚ) : List ℚ := (chunks4 buf).map (fun q => q.2.1)

/-- The B samples extracted by `write_as_exr_image`: element 2 of every
complete quadruple; the coverage at element 3 is dropped. -/
def bChan (buf : List ℚ) : List ℚ := (chunks4 buf).map (fun q => q.2.2.1)

/-- A named channel of the image document (exr `AnyChannel`). -/
structure AnyChannel where
  name : String
  samples : List ℚ
deriving DecidableEq

/-- `AnyChannels::sort`: channels sorted by the canonical (lexicographic)
channel-name ordering. -/
def sortChannels (l : List AnyChannel) : List AnyChannel :=
  List.insertionSort (fun c1 c2 => c1.name ≤ c2.name) l

/-- The channel set built by `write_as_exr_image`
(`src/image.rs` lines 77-81): the R, G, B channels, sorted by name. -/
def write_channels (buf : List ℚ) : List AnyChannel :=
  sortChannels [⟨"R", rChan buf⟩, ⟨"G", gChan buf⟩, ⟨"B", bChan buf⟩]

/-- The error value returned by the codec write: a context message plus
the underlying cause (`anyhow::bail!("Failed to write image: {e:?}")`,
`src/image.rs` line 107). -/
structure WriteError where
  context : String
  cause : String
deriving DecidableEq

/-- Outcome mapping of `write_as_exr_image` (`src/image.rs` lines
99-111): the underlying file write (`image.write().to_file(..)`, an
external library call modelled as an oracle outcome) either succeeds,
in which case the function returns `Ok(())`, or fails with cause `e`,
in which case the function returns the error result carrying `e`. -/
def write_as_exr_image (fs : Except String Unit) : Except WriteError Unit :=
  match fs with
  | Except.ok _ => Except.ok ()
  | Except.error e => Except.error ⟨"Failed to write image", e⟩

theorem chunks4_length : ∀ (n : ℕ) (l : List ℚ), l.length = 4 * n →
    (chunks4 l).length = n := by
  intro n
  induction n with
  | zero =>
    intro l hl
    have h0 : l = [] := List.length_eq_zero.mp (by omega)
    subst h0
    rfl
  | succ n ih =>
    intro l hl
    rcases l with _ | ⟨a, _ | ⟨b, _ | ⟨c, _ | ⟨d, rest⟩⟩⟩⟩ <;>
      simp only [List.length_nil, List.length_cons] at hl <;> try omega
    simp only [chunks4, List.length_cons]
    rw [ih rest (by omega)]

theorem chunks4_getElem? : ∀ (i : ℕ) (l : List ℚ), 4 * i + 3 < l.length →
    ∃ q : ℚ × ℚ × ℚ × ℚ, (chunks4 l)[i]? = some q ∧
      l[4 * i]? = some q.1 ∧ l[4 * i + 1]? = some q.2.1 ∧
      l[4 * i + 2]? = some q.2.2.1 ∧ l[4 * i + 3]? = some q.2.2.2 := by
  intro i
  induction i with
  | zero =>
    intro l hl
    rcases l with _ | ⟨a, _ | ⟨b, _ | ⟨c, _ | ⟨d, rest⟩⟩⟩⟩ <;>
      simp only [List.length_nil, List.length_cons] at hl <;> try omega
    exact ⟨(a, b, c, d), by simp [chunks4], by simp, by simp, by simp, by simp⟩
  | succ i ih =>
    intro l hl
    rcases l with _ | ⟨a, _ | ⟨b, _ | ⟨c, _ | ⟨d, rest⟩⟩⟩⟩ <;>
      simp only [List.length_nil, List.length_cons] at hl <;> try omega
    obtain ⟨q, h0, h1, h2, h3, h4⟩ := ih rest (by omega)
    refine ⟨q, ?_, ?_, ?_, ?_, ?_⟩
    · simpa only [chunks4, List.getElem?_cons_succ] using h0
    · rw [show 4 * (i + 1) = 4 * i + 1 + 1 + 1 + 1 by ring]
      simpa only [List.getElem?_cons_succ] using h1
    · rw [show 4 * (i + 1) + 1 = 4 * i + 1 + 1 + 1 + 1 + 1 by ring]
      simpa only [List.getElem?_cons_succ] using h2
    · rw [show 4 * (i + 1) + 2 = 4 * i + 2 + 1 + 1 + 1 + 1 by ring]
      simpa only [List.getElem?_cons_succ] using h3
    · rw [show 4 * (i + 1) + 3 = 4 * i + 3 + 1 + 1 + 1 + 1 by ring]
      simpa only [List.getElem?_cons_succ] using h4

theorem Mat3.inv_apply (m : Mat3) (h : m.det ≠ 0) (v : Col) :
    m.inv.apply (m.apply v) = v := by
  obtain ⟨a11, a12, a13, a21, a22, a23, a31, a32, a33⟩ := m
  obtain ⟨r, g, b⟩ := v
  simp only [Mat3.det] at h
  simp only [Mat3.apply, Mat3.inv, Mat3.det, Col.mk.injEq]
  refine ⟨?_, ?_, ?_⟩ <;> field_simp <;> ring

theorem lum_scale (t : ℚ) (c : Col) : lum (scale t c) = t * lum c := by
  simp only [lum, scale]
  ring

theorem lum_tonemap (p : PerceptualTonemapperParams) (c : Col) :
    lum (tonemap p c) = if lum c ≤ 0 then lum c else curve p (lum c) := by
  unfold tonemap
  split
  · rfl
  · rename_i h
    rw [lum_scale, div_mul_cancel₀ _ (fun h0 => h (le_of_eq h0))]

theorem curve_nonneg (p : PerceptualTonemapperParams) (x : ℚ)
    (hx : 0 ≤ p.exposure * x) : 0 ≤ curve p x := by
  have h1 : (0 : ℚ) ≤ (p.exposure * x) ^ p.contrast := pow_nonneg hx _
  exact div_nonneg h1 (by linarith)

theorem curve_mono (p : PerceptualTonemapperParams) {x y : ℚ}
    (he : 0 < p.exposure) (hx : 0 ≤ x) (hxy : x ≤ y) :
    curve p x ≤ curve p y := by
  have h1 : 0 ≤ p.exposure * x := mul_nonneg he.le hx
  have h2 : p.exposure * x ≤ p.exposure * y := by
    exact mul_le_mul_of_nonneg_left hxy he.le
  have hA : (0 : ℚ) ≤ (p.exposure * x) ^ p.contrast := pow_nonneg h1 _
  have hB : (0 : ℚ) ≤ (p.exposure * y) ^ p.contrast :=
    pow_nonneg (le_trans h1 h2) _
  have hAB : (p.exposure * x) ^ p.contrast ≤ (p.exposure * y) ^ p.contrast :=
    pow_le_pow_left₀ h1 h2 _
  unfold curve
  rw [div_le_div_iff₀ (by linarith) (by linarith)]
  nlinarith [hA, hAB]

theorem srgb_matrix_det_ne : srgb_to_acescg.det ≠ 0 := by
  norm_num [Mat3.det, srgb_to_acescg]

theorem renderPixel_as_blend (W H x y : ℕ) :
    renderPixel W H x y =
      blend (blend red green ((x : ℚ) / W)) (blend red blue ((y : ℚ) / H))
        (1 / 2) := by
  simp [renderPixel, fit_range]

/-- C2: for all colors `a` and `b`, `blend a b 0 = a` and
`blend a b 1 = b` exactly — the linear interpolation
`a + (b - a) * t` has no drift at the endpoints in exact
arithmetic. -/
theorem blend_identity (a b : Col) : blend a b 0 = a ∧ blend a b 1 = b := by
  obtain ⟨ar, ag, ab⟩ := a
  obtain ⟨br, bg, bb⟩ := b
  refine ⟨?_, ?_⟩ <;> simp only [blend, Col.mk.injEq] <;>
    refine ⟨by ring, by ring, by ring⟩

/-- C1, counterexample: in a 1x2 buffer, the float stored at index
`(y*width + x)*4` for pixel `(0, 0)` is not the R component of
`blend (blend red green (x/width)) (blend red blue (y/height)) 0.5`:
the generator loop runs `y` in reverse while the write index advances
forward, so row 0 of the buffer holds the color computed with
`v = (height-1)/height`, not `v = 0`. -/
theorem render_claim_counterexample :
    ¬ ((render_bg_image 1 2)[(0 * 1 + 0) * 4]? =
        some (blend (blend red green ((0 : ℚ) / 1))
          (blend red blue ((0 : ℚ) / 2)) (1 / 2)).r) := by
  norm_num [render_bg_image, rowList, pixelQuad, renderPixel, fit_range,
    blend, red, green, blue, List.range_succ]

/-- C1, amended: for `x < width` and `y < height`, the four floats
stored at index `(y*width + x)*4` of the generated buffer are the R, G,
B components of
`blend (blend red green (x/width)) (blend red blue ((height-1-y)/height)) 0.5`
followed by the coverage value 1. -/
theorem render_pixel_formula (W H x y : ℕ) (hx : x < W) (hy : y < H) :
    (render_bg_image W H)[(y * W + x) * 4]? =
      some (blend (blend red green ((x : ℚ) / W))
        (blend red blue (((H - 1 - y : ℕ) : ℚ) / H)) (1 / 2)).r ∧
    (render_bg_image W H)[(y * W + x) * 4 + 1]? =
      some (blend (blend red green ((x : ℚ) / W))
        (blend red blue (((H - 1 - y : ℕ) : ℚ) / H)) (1 / 2)).g ∧
    (render_bg_image W H)[(y * W + x) * 4 + 2]? =
      some (blend (blend red green ((x : ℚ) / W))
        (blend red blue (((H - 1 - y : ℕ) : ℚ) / H)) (1 / 2)).b ∧
    (render_bg_image W H)[(y * W + x) * 4 + 3]? = some 1 := by
  have h0 := render_bg_image_getElem? W H x y 0 hx hy (by omega)
  have h1 := render_bg_image_getElem? W H x y 1 hx hy (by omega)
  have h2 := render_bg_image_getElem? W H x y 2 hx hy (by omega)
  have h3 := render_bg_image_getElem? W H x y 3 hx hy (by omega)
  rw [renderPixel_as_blend] at h0 h1 h2 h3
  refine ⟨?_, ?_, ?_, ?_⟩
  · simpa [pixelQuad] using h0
  · simpa [pixelQuad] using h1
  · simpa [pixelQuad] using h2
  · simpa [pixelQuad] using h3

theorem render_pixel_formula_witness :
    0 < 1 ∧ 0 < 2 ∧
      (render_bg_image 1 2)[(0 * 1 + 0) * 4 + 3]? = some 1 :=
  ⟨by decide, by decide,
    (render_pixel_formula 1 2 0 0 (by decide) (by decide)).2.2.2⟩

/-- C10: after a generation pass, the coverage component of every pixel
quadruple in the scene buffer is exactly 1, regardless of position. -/
theorem coverage_is_one (W H i : ℕ) (hi : i < W * H) :
    (render_bg_image W H)[4 * i + 3]? = some 1 := by
  have hW : 0 < W := by
    rcases Nat.eq_zero_or_pos W with h | h
    · subst h; simp at hi
    · exact h
  have hx : i % W < W := Nat.mod_lt _ hW
  have hy : i / W < H := Nat.div_lt_of_lt_mul hi
  have hsum : (i / W) * W + i % W = i := by
    rw [Nat.mul_comm]; exact Nat.div_add_mod i W
  have hidx : 4 * i + 3 = ((i / W) * W + i % W) * 4 + 3 := by rw [hsum]; ring
  rw [hidx, render_bg_image_getElem? W H (i % W) (i / W) 3 hx hy (by omega)]
  simp [pixelQuad]

theorem coverage_is_one_witness :
    0 < 1 * 1 ∧ (render_bg_image 1 1)[4 * 0 + 3]? = some 1 :=
  ⟨by decide, coverage_is_one 1 1 0 (by decide)⟩

/-- C5: for positive dimensions the generated scene buffer has exactly
`width * height * 4` floats and the presented byte sequence has exactly
`width * height * 4` bytes. -/
theorem buffer_lengths (W H : ℕ) (hW : 0 < W) (hH : 0 < H) :
    (render_bg_image W H).length = W * H * 4 ∧
    (drawBytes (render_bg_image W H)).length = W * H * 4 := by
  have hlen := render_bg_image_length W H
  refine ⟨hlen, ?_⟩
  have hchunks : (chunks4 (render_bg_image W H)).length = W * H :=
    chunks4_length (W * H) _ (by rw [hlen]; ring)
  have hfm := length_flatMap_const drawPixel 4 (fun q => rfl)
    (chunks4 (render_bg_image W H))
  rw [drawBytes, hfm, hchunks]
  ring

theorem buffer_lengths_witness :
    0 < 1 ∧
      ((render_bg_image 1 1).length = 1 * 1 * 4 ∧
        (drawBytes (render_bg_image 1 1)).length = 1 * 1 * 4) :=
  ⟨by decide, buffer_lengths 1 1 (by decide) (by decide)⟩

/-- C3: for a fixed hue direction `d` with positive luminance, the
tonemapping step is monotone — a scene-referred color with greater or
equal luminance keeps a greater or equal tonemapped display-referred
luminance. -/
theorem tonemap_monotone (p : PerceptualTonemapperParams) (d : Col)
    (L1 L2 : ℚ) (he : 0 < p.exposure) (hd : 0 < lum d)
    (h2 : 0 ≤ L2) (h12 : L2 ≤ L1) :
    lum (tonemap p (scale L2 d)) ≤ lum (tonemap p (scale L1 d)) := by
  have h1 : 0 ≤ L1 := le_trans h2 h12
  rw [lum_tonemap, lum_tonemap, lum_scale, lum_scale]
  have hscale : L2 * lum d ≤ L1 * lum d :=
    mul_le_mul_of_nonneg_right h12 hd.le
  by_cases hc2 : L2 * lum d ≤ 0
  · have h20 : L2 * lum d = 0 := le_antisymm hc2 (mul_nonneg h2 hd.le)
    rw [if_pos hc2, h20]
    by_cases hc1 : L1 * lum d ≤ 0
    · rw [if_pos hc1]
      exact mul_nonneg h1 hd.le
    · rw [if_neg hc1]
      exact curve_nonneg _ _ (mul_nonneg he.le (mul_nonneg h1 hd.le))
  · have hpos2 : 0 < L2 * lum d := not_le.mp hc2
    have hpos1 : 0 < L1 * lum d := lt_of_lt_of_le hpos2 hscale
    rw [if_neg hc2, if_neg (not_le.mpr hpos1)]
    exact curve_mono p he hpos2.le hscale

theorem tonemap_monotone_witness :
    (0 < defaultParams.exposure ∧ 0 < lum red ∧ (0 : ℚ) ≤ 1 ∧
        (1 : ℚ) ≤ 2) ∧
      lum (tonemap defaultParams (scale 1 red)) ≤
        lum (tonemap defaultParams (scale 2 red)) :=
  ⟨⟨by norm_num [defaultParams], by norm_num [lum, red], by norm_num,
      by norm_num⟩,
    tonemap_monotone defaultParams red 2 1 (by norm_num [defaultParams])
      (by norm_num [lum, red]) (by norm_num) (by norm_num)⟩

/-- C4: converting an Encoded sRGB color with channels in [0, 1] to the
working space and back reproduces it within 1e-5 per channel — in this
exact-rational model the round trip is exact, so the error is 0. -/
theorem srgb_roundtrip (c : Col) (h1 : 0 ≤ c.r) (h2 : c.r ≤ 1)
    (h3 : 0 ≤ c.g) (h4 : c.g ≤ 1) (h5 : 0 ≤ c.b) (h6 : c.b ≤ 1) :
    |(working_to_srgb (srgb_to_working c)).r - c.r| ≤ 1 / 100000 ∧
    |(working_to_srgb (srgb_to_working c)).g - c.g| ≤ 1 / 100000 ∧
    |(working_to_srgb (srgb_to_working c)).b - c.b| ≤ 1 / 100000 := by
  have heq : working_to_srgb (srgb_to_working c) = c :=
    Mat3.inv_apply srgb_to_acescg srgb_matrix_det_ne c
  rw [heq]
  norm_num

theorem srgb_roundtrip_witness :
    (0 ≤ (Col.mk 1 (1 / 2) 0).r ∧ (Col.mk 1 (1 / 2) 0).r ≤ 1 ∧
        0 ≤ (Col.mk 1 (1 / 2) 0).g ∧ (Col.mk 1 (1 / 2) 0).g ≤ 1 ∧
        0 ≤ (Col.mk 1 (1 / 2) 0).b ∧ (Col.mk 1 (1 / 2) 0).b ≤ 1) ∧
      |(working_to_srgb (srgb_to_working (Col.mk 1 (1 / 2) 0))).r -
          (Col.mk 1 (1 / 2) 0).r| ≤ 1 / 100000 :=
  ⟨⟨by norm_num, by norm_num, by norm_num, by norm_num, by norm_num,
      by norm_num⟩,
    (srgb_roundtrip ⟨1, 1 / 2, 0⟩ (by norm_num) (by norm_num) (by norm_num)
      (by norm_num) (by norm_num) (by norm_num)).1⟩

/-- C6: presenting never mutates the owned scene buffer — after any
number of redraw cycles the application state is unchanged, and the byte
output of a later present equals the byte output of the first. -/
theorem present_preserves_state (s : ApplicationState) (n : ℕ) :
    (fun st => (redrawStep st).2)^[n] s = s ∧
    (redrawStep ((fun st => (redrawStep st).2)^[n] s)).1 =
      (redrawStep s).1 := by
  have h : ∀ m : ℕ, (fun st => (redrawStep st).2)^[m] s = s := by
    intro m
    induction m with
    | zero => rfl
    | succ m ih =>
      rw [Function.iterate_succ_apply]
      exact ih
  exact ⟨h n, by rw [h n]⟩

/-- C7: the coverage value of a pixel bypasses the tonemapping step (the
first three output bytes do not depend on it, and it alone determines
the fourth output byte), and its 8-bit conversion is saturated to
[0, 255] even for stored coverage outside [0, 1]. -/
theorem alpha_passthrough (r g b a r2 g2 b2 a2 : ℚ) :
    (drawPixel (r, g, b, a)).take 3 = (drawPixel (r, g, b, a2)).take 3 ∧
    (drawPixel (r, g, b, a))[3]? = some (alphaByte a) ∧
    (drawPixel (r2, g2, b2, a))[3]? = some (alphaByte a) ∧
    alphaByte a ≤ 255 ∧
    alphaByte 2 = 255 ∧
    alphaByte (-1) = 0 := by
  refine ⟨rfl, ?_, ?_, ?_, ?_, ?_⟩
  · simp [drawPixel]
  · simp [drawPixel]
  · unfold alphaByte rust_f32_as_u8
    split
    · exact Nat.zero_le _
    · exact Nat.min_le_left 255 _
  · norm_num [alphaByte, rust_f32_as_u8]
  · norm_num [alphaByte, rust_f32_as_u8]

/-- C8: the encoded image document has exactly the three channels named
R, G, B, listed in the canonical sorted name order B, G, R; each channel
has `width * height` samples, and the i-th sample of the R, G, B channel
is the float at buffer index `4*i`, `4*i+1`, `4*i+2` (the coverage at
`4*i+3` is dropped). -/
theorem exr_channels (buf : List ℚ) (W H i : ℕ)
    (hlen : buf.length = W * H * 4) (hi : i < W * H) :
    write_channels buf =
      [⟨"B", bChan buf⟩, ⟨"G", gChan buf⟩, ⟨"R", rChan buf⟩] ∧
    (rChan buf).length = W * H ∧ (gChan buf).length = W * H ∧
    (bChan buf).length = W * H ∧
    (rChan buf)[i]? = buf[4 * i]? ∧
    (gChan buf)[i]? = buf[4 * i + 1]? ∧
    (bChan buf)[i]? = buf[4 * i + 2]? := by
  have hch : (chunks4 buf).length = W * H :=
    chunks4_length (W * H) _ (by rw [hlen]; ring)
  obtain ⟨q, hq, h0, h1, h2, h3⟩ := chunks4_getElem? i buf (by omega)
  refine ⟨?_, ?_, ?_, ?_, ?_, ?_, ?_⟩
  · simp [write_channels, sortChannels, List.insertionSort,
      List.orderedInsert]
    rw [if_neg (by decide), if_neg (by decide)]
  · simp [rChan, hch]
  · simp [gChan, hch]
  · simp [bChan, hch]
  · unfold rChan
    rw [List.getElem?_map, hq, h0]
    rfl
  · unfold gChan
    rw [List.getElem?_map, hq, h1]
    rfl
  · unfold bChan
    rw [List.getElem?_map, hq, h2]
    rfl

theorem exr_channels_witness :
    ([(10 : ℚ), 20, 30, 40].length = 1 * 1 * 4 ∧ 0 < 1 * 1) ∧
      (rChan [(10 : ℚ), 20, 30, 40])[0]? = [(10 : ℚ), 20, 30, 40][4 * 0]? :=
  ⟨⟨by decide, by decide⟩,
    (exr_channels [(10 : ℚ), 20, 30, 40] 1 1 0 (by decide)
      (by decide)).2.2.2.2.1⟩

/-- C9: the codec write returns an explicit result — on success of the
underlying file write it returns success, and on a file-system failure
with cause `e` it returns an error value carrying `e`, rather than
aborting. -/
theorem write_result (e : String) :
    write_as_exr_image (Except.ok ()) = Except.ok () ∧
    write_as_exr_image (Except.error e) =
      Except.error ⟨"Failed to write image", e⟩ ∧
    (write_as_exr_image (Except.error e)).isOk = false :=
  ⟨rfl, rfl, rfl⟩

end FB
